import Mathlib

/-!
Verification of the protoc-gen-jsonschema converter (src/main.go) against its
natural-language specification.  The Go program is shallowly embedded below:
pure helpers become Lean functions; the pointer-based mutation of shared
message descriptors (enum-list enrichment) is modelled by threading an explicit
store of message descriptors, addressed by numeric ids, through the recursive
conversion functions.  Machine recursion over mutually recursive descriptors is
bounded by an explicit fuel argument; a result of none means only that the fuel
ran out, never an error of the program.
-/

namespace PGJS

/-! ## Descriptor model (inputs of the converter)

Mirrors the subset of google.protobuf descriptors used by src/main.go:
FieldDescriptorProto (type, type name, label, json name), DescriptorProto
(name, fields, nested message ids, enums), EnumDescriptorProto and
FileDescriptorProto.  Messages live in a `Store` (a heap addressed by id)
because the Go code mutates shared `*descriptor.DescriptorProto` values. -/

/-- One value of an enum descriptor: a name and an integer number. -/
structure EnumValueD where
  name : String
  number : Int
deriving DecidableEq, Repr

/-- An enum descriptor: a name and the declared values in order. -/
structure EnumD where
  name : String
  values : List EnumValueD
deriving DecidableEq, Repr

/-- The declared kind of a field, mirroring FieldDescriptorProto_TYPE_*. -/
inductive FieldType where
  | tDouble | tFloat
  | tInt32 | tUint32 | tFixed32 | tSfixed32 | tSint32
  | tInt64 | tUint64 | tFixed64 | tSfixed64 | tSint64
  | tString | tBytes | tEnum | tBool | tGroup | tMessage
deriving DecidableEq, Repr

/-- The label of a field, mirroring FieldDescriptorProto_LABEL_*. -/
inductive Label where
  | optional | required | repeated
deriving DecidableEq, Repr

/-- A field descriptor. -/
structure FieldD where
  name : String
  jsonName : String
  typ : FieldType
  typeName : String
  label : Label
deriving DecidableEq, Repr

/-- A message descriptor.  `nested` holds store ids of the nested message
descriptors (in Go these are pointers into the shared descriptor graph). -/
structure MsgD where
  name : String
  fields : List FieldD
  nested : List Nat
  enums : List EnumD
deriving DecidableEq, Repr

/-- The heap of message descriptors; ids are list indices.  Mutating a shared
descriptor in Go corresponds to updating one entry of the store. -/
abbrev Store := List MsgD

/-- A file descriptor: name, optional package, ids of its top-level messages,
and its top-level enum descriptors. -/
structure FileD where
  name : String
  pkg : Option String
  messageType : List Nat
  enumType : List EnumD
deriving DecidableEq, Repr

/-- Reads a message from the store; missing ids yield a default that mirrors
the zero value read through a nil pointer getter. -/
def msgAt (store : Store) (i : Nat) : MsgD :=
  (store.get? i).getD { name := "", fields := [], nested := [], enums := [] }

/-- Appends enum descriptors to the enum list of the message stored at `i`
(the shared-descriptor mutation of main.go lines 369-373 and 528-530). -/
def appendEnums (store : Store) (i : Nat) (es : List EnumD) : Store :=
  match store.get? i with
  | none => store
  | some m => store.set i { m with enums := m.enums ++ es }

/-! ## String helpers

Go `strings.Split`, `strings.HasSuffix` and `strings.HasPrefix` re-implemented
structurally over character lists so that all proofs reduce in the kernel. -/

/-- Boolean test that the first list is an initial segment of the second. -/
def listLeads [BEq α] : List α → List α → Bool
  | [], _ => true
  | _ :: _, [] => false
  | a :: as, b :: bs => a == b && listLeads as bs

/-- Go strings.HasSuffix s t. -/
def strEndsWith (s t : String) : Bool :=
  listLeads t.toList.reverse s.toList.reverse

/-- Go strings.HasPrefix s t. -/
def strStartsWith (s t : String) : Bool :=
  listLeads t.toList s.toList

/-- Helper of `splitOnChar`, walking the character list with an accumulator for
the current segment (kept in reverse). -/
def splitOnCharAux (sep : Char) : List Char → List Char → List String
  | [], acc => [String.mk acc.reverse]
  | c :: cs, acc =>
    if c == sep then String.mk acc.reverse :: splitOnCharAux sep cs []
    else splitOnCharAux sep cs (c :: acc)

/-- Go strings.Split s (String.singleton sep): the empty string yields one
empty segment, and separators at the borders yield empty segments. -/
def splitOnChar (sep : Char) (s : String) : List String :=
  splitOnCharAux sep s.toList []

/-- Splits a dotted name into its components, as strings.Split(name, "."). -/
def splitDots (s : String) : List String :=
  splitOnChar '.' s

/-! ## Package registry (ProtoPackage tree)

The Go ProtoPackage tree: children keyed by path segment and a map from local
message name to the registered message (here: its store id).  Parent pointers
are replaced by keeping the context as the path from the root. -/

/-- A node of the package tree: children by segment, types by local name. -/
inductive PkgTree where
  | mk (children : List (String × PkgTree)) (types : List (String × Nat))

/-- Children of a package node. -/
def PkgTree.children : PkgTree → List (String × PkgTree)
  | .mk cs _ => cs

/-- Registered types of a package node. -/
def PkgTree.types : PkgTree → List (String × Nat)
  | .mk _ ts => ts

/-- Association-list lookup (Go map read). -/
def assocGet (l : List (String × α)) (k : String) : Option α :=
  (l.find? (fun p => p.fst == k)).map Prod.snd

/-- Association-list insertion or replacement (Go map write). -/
def assocSet (l : List (String × α)) (k : String) (v : α) : List (String × α) :=
  match l with
  | [] => [(k, v)]
  | (k2, v2) :: rest =>
    if k2 == k then (k, v) :: rest else (k2, v2) :: assocSet rest k v

/-- Walks/creates package nodes along the component path and stores the
message id under its local name at the final node (main.go registerType). -/
def PkgTree.registerAt : PkgTree → List String → String → Nat → PkgTree
  | t, [], tname, mid => .mk t.children (assocSet t.types tname mid)
  | t, c :: rest, tname, mid =>
    let child := (assocGet t.children c).getD (.mk [] [])
    .mk (assocSet t.children c (child.registerAt rest tname mid)) t.types

/-- main.go registerType: a nil package registers at the root; otherwise the
dotted package is split and empty leading segments are skipped (they are
skipped exactly while the walk is still at the root node). -/
def registerType (reg : PkgTree) (pkgName : Option String) (tname : String)
    (mid : Nat) : PkgTree :=
  match pkgName with
  | none => reg.registerAt [] tname mid
  | some p => reg.registerAt ((splitDots p).dropWhile (fun c => c == "")) tname mid

/-- main.go relativelyLookupNestedType: walks dot components through nested
message descriptors, taking the first nested message matching each name. -/
def nestedLookup (store : Store) : Nat → List String → Option Nat
  | mid, [] => some mid
  | mid, c :: rest =>
    match (msgAt store mid).nested.find? (fun nid => (msgAt store nid).name == c) with
    | some nid => nestedLookup store nid rest
    | none => none

/-- main.go relativelyLookupType, with the name already split at every dot
(Go splits off one leading component per recursive call; iterating that
produces exactly the full component list). -/
def PkgTree.relLookup (store : Store) : PkgTree → List String → Option Nat
  | _, [] => none
  | pkg, [c] => assocGet pkg.types c
  | pkg, c :: rest =>
    match assocGet pkg.children c with
    | some child => child.relLookup store rest
    | none =>
      match assocGet pkg.types c with
      | some mid => nestedLookup store mid rest
      | none => none

/-- Descends child packages along a component path (the walk shared by
relativelyLookupPackage and the ancestor enumeration of lookupType). -/
def PkgTree.subtree : PkgTree → List String → Option PkgTree
  | t, [] => some t
  | t, c :: rest =>
    match assocGet t.children c with
    | some ch => ch.subtree rest
    | none => none

/-- main.go (pkg).lookupType: names with a leading dot resolve absolutely from
the root; otherwise relative resolution is tried at the context package and
then at each ancestor up to the root, taking the first success. -/
def lookupType (reg : PkgTree) (store : Store) (ctx : List String)
    (name : String) : Option Nat :=
  if strStartsWith name "." then
    reg.relLookup store (splitDots name).tail
  else
    ((List.range (ctx.length + 1)).reverse.map (fun n => ctx.take n)).findSome?
      (fun p => (reg.subtree p).bind (fun t => t.relLookup store (splitDots name)))

/-- main.go (globalPkg).relativelyLookupPackage: walks children by segment and
fails if any segment is absent. -/
def relLookupPackage (reg : PkgTree) (pkgStr : String) : Option PkgTree :=
  reg.subtree (splitDots pkgStr)

/-- Builds the registry exactly as the first loop of main.go convert: every
message of every file of the request is registered under the file package. -/
def buildRegistry (store : Store) (files : List FileD) : PkgTree :=
  files.foldl
    (fun reg f =>
      f.messageType.foldl
        (fun reg2 mid => registerType reg2 f.pkg (msgAt store mid).name mid) reg)
    (PkgTree.mk [] [])

/-! ## Schema nodes and configuration -/

/-- An allowed enum literal as appended by main.go: the value name or the
value number (Go stores both in the untyped Enum list). -/
inductive EnumLit where
  | str (s : String)
  | num (n : Int)
deriving DecidableEq, Repr

/-- A jsonschema.Type node.  Because the node type is recursive through lists
and options it is an inductive with one constructor; accessors and per-field
update helpers are defined below.  `addProps` is the AdditionalProperties
marker (none = unset, some true = "true", some false = "false"); `version`
records whether the schema-version marker of document roots is set. -/
inductive SchemaType where
  | mk (type : String) (format : String) (enumL : List EnumLit)
       (oneOf : List SchemaType) (items : Option SchemaType)
       (properties : List (String × SchemaType))
       (addProps : Option Bool) (version : Bool)

/-- Scalar type tag of a schema node (empty string = unset). -/
def SchemaType.type : SchemaType → String
  | .mk t _ _ _ _ _ _ _ => t

/-- Format hint of a schema node (empty string = unset). -/
def SchemaType.format : SchemaType → String
  | .mk _ f _ _ _ _ _ _ => f

/-- Allowed enum literals of a schema node. -/
def SchemaType.enumL : SchemaType → List EnumLit
  | .mk _ _ e _ _ _ _ _ => e

/-- One-of union members of a schema node. -/
def SchemaType.oneOf : SchemaType → List SchemaType
  | .mk _ _ _ o _ _ _ _ => o

/-- Array item node of a schema node. -/
def SchemaType.items : SchemaType → Option SchemaType
  | .mk _ _ _ _ i _ _ _ => i

/-- Properties of an object schema node. -/
def SchemaType.properties : SchemaType → List (String × SchemaType)
  | .mk _ _ _ _ _ p _ _ => p

/-- AdditionalProperties marker of a schema node. -/
def SchemaType.addProps : SchemaType → Option Bool
  | .mk _ _ _ _ _ _ a _ => a

/-- Whether the schema-version marker is set on this node. -/
def SchemaType.version : SchemaType → Bool
  | .mk _ _ _ _ _ _ _ v => v

/-- Replaces the scalar type tag. -/
def SchemaType.withType : SchemaType → String → SchemaType
  | .mk _ f e o i p a v, t => .mk t f e o i p a v

/-- Replaces the format hint. -/
def SchemaType.withFormat : SchemaType → String → SchemaType
  | .mk t _ e o i p a v, f => .mk t f e o i p a v

/-- Replaces the enum literal list. -/
def SchemaType.withEnum : SchemaType → List EnumLit → SchemaType
  | .mk t f _ o i p a v, e => .mk t f e o i p a v

/-- Replaces the one-of member list. -/
def SchemaType.withOneOf : SchemaType → List SchemaType → SchemaType
  | .mk t f e _ i p a v, o => .mk t f e o i p a v

/-- Replaces the items node. -/
def SchemaType.withItems : SchemaType → Option SchemaType → SchemaType
  | .mk t f e o _ p a v, i => .mk t f e o i p a v

/-- Replaces the property map. -/
def SchemaType.withProps : SchemaType → List (String × SchemaType) → SchemaType
  | .mk t f e o i _ a v, p => .mk t f e o i p a v

/-- Replaces the AdditionalProperties marker. -/
def SchemaType.withAddProps : SchemaType → Option Bool → SchemaType
  | .mk t f e o i p _ v, a => .mk t f e o i p a v

/-- Replaces the version marker. -/
def SchemaType.withVersion : SchemaType → Bool → SchemaType
  | .mk t f e o i p a _, v2 => .mk t f e o i p a v2

/-- The zero jsonschema.Type value (with an allocated empty property map). -/
def emptySchema : SchemaType := .mk "" "" [] [] none [] none false

/-- A node carrying only a scalar type tag, as the literals written inline by
main.go for one-of members. -/
def typeOnly (t : String) : SchemaType := emptySchema.withType t

/-- gojsonschema type-name constants used by main.go. -/
def TYPE_NULL : String := "null"

/-- gojsonschema TYPE_NUMBER. -/
def TYPE_NUMBER : String := "number"

/-- gojsonschema TYPE_INTEGER. -/
def TYPE_INTEGER : String := "integer"

/-- gojsonschema TYPE_STRING. -/
def TYPE_STRING : String := "string"

/-- gojsonschema TYPE_BOOLEAN. -/
def TYPE_BOOLEAN : String := "boolean"

/-- gojsonschema TYPE_OBJECT. -/
def TYPE_OBJECT : String := "object"

/-- gojsonschema TYPE_ARRAY. -/
def TYPE_ARRAY : String := "array"

/-- The configuration booleans of main.go (the package-level flag variables),
resolved once per invocation. -/
structure Config where
  allowNullValues : Bool := false
  disallowEnumOneOf : Bool := false
  disallowOneOf : Bool := false
  disallowAdditionalProperties : Bool := false
  disallowBigIntsAsStrings : Bool := false
  debug : Bool := false
deriving DecidableEq, Repr

/-! ## The type converter (main.go convertField / convertMessageType)

convertField is split into the three phases of the Go function body: the
type switch building the base node (lines 194-327), the repeated-field array
wrap (lines 330-357) and the object recursion (lines 361-397).  The object
recursion and the enclosing-message enum read make the functions stateful in
the descriptor store and mutually recursive; fuel bounds the recursion. -/

/-- Interleaves enum value names and (when enum-one-of is allowed) numbers in
declaration order, as the inner loop of main.go lines 279-288. -/
def enumLits (withNumbers : Bool) : List EnumValueD → List EnumLit
  | [] => []
  | v :: vs =>
    EnumLit.str v.name ::
      ((if withNumbers then [EnumLit.num v.number] else []) ++ enumLits withNumbers vs)

/-- The type switch of main.go convertField (lines 194-327), producing the
base schema node before the repeated/object post-processing.  `msgEnums` is
the enum list of the enclosing message at call time. -/
def baseSchema (cfg : Config) (field : FieldD) (msgEnums : List EnumD) : SchemaType :=
  let allowEnumOneOf := !cfg.disallowEnumOneOf
  let allowOneOf := !cfg.disallowOneOf
  match field.typ with
  | .tDouble | .tFloat =>
    if cfg.allowNullValues && allowOneOf then
      emptySchema.withOneOf [typeOnly TYPE_NULL, typeOnly TYPE_NUMBER]
    else emptySchema.withType TYPE_NUMBER
  | .tInt32 | .tUint32 | .tFixed32 | .tSfixed32 | .tSint32 =>
    if cfg.allowNullValues && allowOneOf then
      emptySchema.withOneOf [typeOnly TYPE_NULL, typeOnly TYPE_INTEGER]
    else emptySchema.withType TYPE_INTEGER
  | .tInt64 | .tUint64 | .tFixed64 | .tSfixed64 | .tSint64 =>
    if allowOneOf then
      emptySchema.withOneOf
        ([typeOnly TYPE_INTEGER] ++
          (if !cfg.disallowBigIntsAsStrings then [typeOnly TYPE_STRING] else []) ++
          (if cfg.allowNullValues then [typeOnly TYPE_NULL] else []))
    else emptySchema.withType TYPE_INTEGER
  | .tString | .tBytes =>
    if cfg.allowNullValues && allowOneOf then
      emptySchema.withOneOf [typeOnly TYPE_NULL, typeOnly TYPE_STRING]
    else emptySchema.withType TYPE_STRING
  | .tEnum =>
    let j :=
      if allowEnumOneOf && allowOneOf then
        emptySchema.withOneOf
          ([typeOnly TYPE_STRING, typeOnly TYPE_INTEGER] ++
            (if cfg.allowNullValues then [typeOnly TYPE_NULL] else []))
      else emptySchema.withType TYPE_STRING
    match msgEnums.find? (fun ed => strEndsWith field.typeName ed.name) with
    | some ed => j.withEnum (enumLits allowEnumOneOf ed.values)
    | none => j
  | .tBool =>
    if cfg.allowNullValues && allowOneOf then
      emptySchema.withOneOf [typeOnly TYPE_NULL, typeOnly TYPE_BOOLEAN]
    else emptySchema.withType TYPE_BOOLEAN
  | .tGroup | .tMessage =>
    if field.typeName == ".google.protobuf.Timestamp" then
      (emptySchema.withType TYPE_STRING).withFormat "date-time"
    else
      (emptySchema.withType TYPE_OBJECT).withAddProps
        (if cfg.disallowAdditionalProperties then some false
         else if field.label = Label.optional then some true
         else if field.label = Label.required then some false
         else none)

/-- The repeated-field array wrap of main.go convertField (lines 330-357):
moves the computed node into `items` (keeping the enum list on the items node
and dropping it from the outer node), then turns the outer node into an array,
nullable-wrapped when both nullability and one-of are enabled. -/
def repeatWrap (cfg : Config) (j : SchemaType) : SchemaType :=
  let allowEnumOneOf := !cfg.disallowEnumOneOf
  let allowOneOf := !cfg.disallowOneOf
  let withIts :=
    if j.enumL ≠ [] then
      let its :=
        if allowEnumOneOf && allowOneOf then
          (emptySchema.withEnum j.enumL).withOneOf j.oneOf
        else (emptySchema.withEnum j.enumL).withType j.type
      (j.withEnum []).withItems (some its)
    else j.withItems (some ((emptySchema.withType j.type).withOneOf j.oneOf))
  if cfg.allowNullValues && allowOneOf then
    withIts.withOneOf [typeOnly TYPE_NULL, typeOnly TYPE_ARRAY]
  else
    (withIts.withType TYPE_ARRAY).withOneOf []

mutual

/-- main.go convertField: builds the base node by the type switch, applies the
repeated array wrap for non-object kinds, and recurses through the registry
for object kinds, enriching the target message with the enclosing message
enums when the target has none (lines 361-397).  Results are threaded with the
store; none means the fuel ran out. -/
def convertField (cfg : Config) (reg : PkgTree) :
    Nat → List String → FieldD → Nat → Store →
      Option (Except String SchemaType) × Store
  | 0, _, _, _, store => (none, store)
  | Nat.succ fuel, curPath, field, msgId, store =>
    let allowOneOf := !cfg.disallowOneOf
    let j := baseSchema cfg field (msgAt store msgId).enums
    if field.label = Label.repeated ∧ j.type ≠ TYPE_OBJECT then
      (some (.ok (repeatWrap cfg j)), store)
    else if j.type = TYPE_OBJECT then
      match lookupType reg store curPath field.typeName with
      | none =>
        (some (.error ("no such message type named " ++ field.typeName)), store)
      | some mid =>
        let store1 :=
          if (msgAt store mid).enums.isEmpty then
            appendEnums store mid (msgAt store msgId).enums
          else store
        match convertMessageType cfg reg fuel curPath mid store1 with
        | (none, s) => (none, s)
        | (some (.error e), s) => (some (.error e), s)
        | (some (.ok r), s) =>
          let j1 :=
            if field.label = Label.repeated then
              (j.withItems (some r)).withType TYPE_ARRAY
            else j.withProps r.properties
          if cfg.allowNullValues && allowOneOf then
            (some (.ok ((j1.withOneOf [typeOnly TYPE_NULL, typeOnly j1.type]).withType "")), s)
          else (some (.ok j1), s)
    else (some (.ok j), store)

/-- main.go convertMessageType: an object node (nullable-wrapped when both
nullability and one-of are enabled), the version marker, the
AdditionalProperties marker, and one property per field keyed by the JSON
name; the first field error aborts the whole message conversion. -/
def convertMessageType (cfg : Config) (reg : PkgTree) :
    Nat → List String → Nat → Store → Option (Except String SchemaType) × Store
  | 0, _, _, store => (none, store)
  | Nat.succ fuel, curPath, msgId, store =>
    let allowOneOf := !cfg.disallowOneOf
    let base :=
      if cfg.allowNullValues && allowOneOf then
        (emptySchema.withVersion true).withOneOf
          [typeOnly TYPE_NULL, typeOnly TYPE_OBJECT]
      else (emptySchema.withVersion true).withType TYPE_OBJECT
    let base2 := base.withAddProps (some (!cfg.disallowAdditionalProperties))
    convertFields cfg reg fuel curPath msgId (msgAt store msgId).fields base2 store

/-- The field loop of main.go convertMessageType (lines 431-438), threading
the store and aborting on the first field error. -/
def convertFields (cfg : Config) (reg : PkgTree) :
    Nat → List String → Nat → List FieldD → SchemaType → Store →
      Option (Except String SchemaType) × Store
  | 0, _, _, _, _, store => (none, store)
  | Nat.succ _, _, _, [], acc, store => (some (.ok acc), store)
  | Nat.succ fuel, curPath, msgId, f :: rest, acc, store =>
    match convertField cfg reg fuel curPath f msgId store with
    | (none, s) => (none, s)
    | (some (.error e), s) => (some (.error e), s)
    | (some (.ok r), s) =>
      convertFields cfg reg fuel curPath msgId rest
        (acc.withProps (assocSet acc.properties f.jsonName r)) s

end

/-- main.go convertEnumType: a standalone enum schema with the version marker,
the one-of/bare-string policy and the interleaved value list. -/
def convertEnumType (cfg : Config) (e : EnumD) : SchemaType :=
  let allowEnumOneOf := !cfg.disallowEnumOneOf
  let allowOneOf := !cfg.disallowOneOf
  let j :=
    if allowEnumOneOf && allowOneOf then
      (emptySchema.withVersion true).withOneOf
        [typeOnly TYPE_STRING, typeOnly TYPE_INTEGER]
    else (emptySchema.withVersion true).withType TYPE_STRING
  j.withEnum (enumLits (allowEnumOneOf && allowOneOf) e.values)

/-! ## File converter and session driver (main.go convertFile / convert) -/

/-- An output document: its file name and its schema (serialization of the
schema into JSON text is outside the embedded core). -/
abbrev OutFile := String × SchemaType

/-- The message loop of main.go convertFile (lines 521-550): for each message,
appends the file enum descriptors to the message enum list (the shared
descriptor is mutated), converts the message, and emits a document named after
the message; the first error aborts the file. -/
def convertFileMsgs (cfg : Config) (reg : PkgTree) (fuel : Nat)
    (curPath : List String) (fileEnums : List EnumD) :
    List Nat → List OutFile → Store → Option (Except String (List OutFile)) × Store
  | [], acc, store => (some (.ok acc), store)
  | mid :: rest, acc, store =>
    let docName := (msgAt store mid).name ++ ".jsonschema"
    let store1 := appendEnums store mid fileEnums
    match convertMessageType cfg reg fuel curPath mid store1 with
    | (none, s) => (none, s)
    | (some (.error e), s) => (some (.error e), s)
    | (some (.ok node), s) =>
      convertFileMsgs cfg reg fuel curPath fileEnums rest (acc ++ [(docName, node)]) s

/-- main.go convertFile: a file with no top-level message yields one document
per top-level enum; otherwise the file package is resolved in the registry
(failing with "no such package found") and every top-level message yields one
document via convertMessageType. -/
def convertFile (cfg : Config) (reg : PkgTree) (fuel : Nat) (file : FileD)
    (store : Store) : Option (Except String (List OutFile)) × Store :=
  if file.messageType.isEmpty then
    (some (.ok (file.enumType.map
      (fun e => (e.name ++ ".jsonschema", convertEnumType cfg e)))), store)
  else
    let comps := splitDots (file.pkg.getD "")
    match reg.subtree comps with
    | none =>
      (some (.error ("no such package found: " ++ file.pkg.getD "")), store)
    | some _ => convertFileMsgs cfg reg fuel comps file.enumType file.messageType [] store

/-- A code generator request: the ordered target list and the full forest. -/
structure CodeGenRequest where
  fileToGenerate : List String
  protoFile : List FileD

/-- A code generator response: an optional error and the output documents. -/
structure CodeGenResponse where
  error : Option String := none
  file : List OutFile := []

/-- The second loop of main.go convert (lines 577-589): files of the forest
are visited in forest order; targeted files have their enum list replaced by
the flat list of all enums and are converted; a failure stops the loop,
setting the error while keeping the documents accumulated so far. -/
def convertLoop (cfg : Config) (reg : PkgTree) (fuel : Nat)
    (targets : List String) (enumDs : List EnumD) :
    List FileD → List OutFile → Store → Option (CodeGenResponse × Store)
  | [], acc, store => some ({ error := none, file := acc }, store)
  | f :: rest, acc, store =>
    if targets.contains f.name then
      match convertFile cfg reg fuel { f with enumType := enumDs } store with
      | (none, _) => none
      | (some (.error e), s) =>
        some ({ error := some ("Failed to convert " ++ f.name ++ ": " ++ e),
                file := acc }, s)
      | (some (.ok docs), s) => convertLoop cfg reg fuel targets enumDs rest (acc ++ docs) s
    else convertLoop cfg reg fuel targets enumDs rest acc store

/-- main.go convert: registers every message of every file, gathers every enum
descriptor across all files, then runs the conversion loop over the forest. -/
def convert (cfg : Config) (fuel : Nat) (req : CodeGenRequest) (store : Store) :
    Option (CodeGenResponse × Store) :=
  let reg := buildRegistry store req.protoFile
  let enumDs := (req.protoFile.map FileD.enumType).flatten
  convertLoop cfg reg fuel req.fileToGenerate enumDs req.protoFile [] store

/-! ## Configuration resolution (main.go commandLineParameter) -/

/-- The panic message of main.go line 625 (quotes around the flag names are
omitted). -/
def conflictMsg : String :=
  "flags allow_null_values and disallow_one_of cannot both be on"

/-- The switch body of main.go commandLineParameter applied to the split
parameter list; the panic on conflicting flags becomes an error result. -/
def applyParams : List String → Config → Except String Config
  | [], cfg => .ok cfg
  | p :: rest, cfg =>
    if p == "allow_null_values" then
      applyParams rest { cfg with allowNullValues := true }
    else if p == "debug" then
      applyParams rest { cfg with debug := true }
    else if p == "disallow_enum_one_of" then
      applyParams rest { cfg with disallowEnumOneOf := true }
    else if p == "disallow_one_of" then
      if cfg.allowNullValues then .error conflictMsg
      else applyParams rest { cfg with disallowOneOf := true }
    else if p == "disallow_additional_properties" then
      applyParams rest { cfg with disallowAdditionalProperties := true }
    else if p == "disallow_bigints_as_strings" then
      applyParams rest { cfg with disallowBigIntsAsStrings := true }
    else applyParams rest cfg

/-- main.go commandLineParameter: splits the parameter string on commas and
applies each recognized parameter to the configuration in order. -/
def commandLineParameter (parameters : String) (cfg : Config) : Except String Config :=
  applyParams (splitOnChar ',' parameters) cfg

/-! ## Simp lemmas for schema-node accessors -/
@[simp] theorem type_mk (t f : String) (e : List EnumLit) (o : List SchemaType) (i : Option SchemaType) (p : List (String × SchemaType)) (a2 : Option Bool) (v : Bool) : (SchemaType.mk t f e o i p a2 v).type = t := rfl
@[simp] theorem format_mk (t f : String) (e : List EnumLit) (o : List SchemaType) (i : Option SchemaType) (p : List (String × SchemaType)) (a2 : Option Bool) (v : Bool) : (SchemaType.mk t f e o i p a2 v).format = f := rfl
@[simp] theorem enumL_mk (t f : String) (e : List EnumLit) (o : List SchemaType) (i : Option SchemaType) (p : List (String × SchemaType)) (a2 : Option Bool) (v : Bool) : (SchemaType.mk t f e o i p a2 v).enumL = e := rfl
@[simp] theorem oneOf_mk (t f : String) (e : List EnumLit) (o : List SchemaType) (i : Option SchemaType) (p : List (String × SchemaType)) (a2 : Option Bool) (v : Bool) : (SchemaType.mk t f e o i p a2 v).oneOf = o := rfl
@[simp] theorem items_mk (t f : String) (e : List EnumLit) (o : List SchemaType) (i : Option SchemaType) (p : List (String × SchemaType)) (a2 : Option Bool) (v : Bool) : (SchemaType.mk t f e o i p a2 v).items = i := rfl
@[simp] theorem properties_mk (t f : String) (e : List EnumLit) (o : List SchemaType) (i : Option SchemaType) (p : List (String × SchemaType)) (a2 : Option Bool) (v : Bool) : (SchemaType.mk t f e o i p a2 v).properties = p := rfl
@[simp] theorem addProps_mk (t f : String) (e : List EnumLit) (o : List SchemaType) (i : Option SchemaType) (p : List (String × SchemaType)) (a2 : Option Bool) (v : Bool) : (SchemaType.mk t f e o i p a2 v).addProps = a2 := rfl
@[simp] theorem version_mk (t f : String) (e : List EnumLit) (o : List SchemaType) (i : Option SchemaType) (p : List (String × SchemaType)) (a2 : Option Bool) (v : Bool) : (SchemaType.mk t f e o i p a2 v).version = v := rfl
@[simp] theorem type_withType (j : SchemaType) (x) : (j.withType x).type = x := by cases j; rfl
@[simp] theorem format_withType (j : SchemaType) (x) : (j.withType x).format = j.format := by cases j; rfl
@[simp] theorem enumL_withType (j : SchemaType) (x) : (j.withType x).enumL = j.enumL := by cases j; rfl
@[simp] theorem oneOf_withType (j : SchemaType) (x) : (j.withType x).oneOf = j.oneOf := by cases j; rfl
@[simp] theorem items_withType (j : SchemaType) (x) : (j.withType x).items = j.items := by cases j; rfl
@[simp] theorem properties_withType (j : SchemaType) (x) : (j.withType x).properties = j.properties := by cases j; rfl
@[simp] theorem addProps_withType (j : SchemaType) (x) : (j.withType x).addProps = j.addProps := by cases j; rfl
@[simp] theorem version_withType (j : SchemaType) (x) : (j.withType x).version = j.version := by cases j; rfl
@[simp] theorem type_withFormat (j : SchemaType) (x) : (j.withFormat x).type = j.type := by cases j; rfl
@[simp] theorem format_withFormat (j : SchemaType) (x) : (j.withFormat x).format = x := by cases j; rfl
@[simp] theorem enumL_withFormat (j : SchemaType) (x) : (j.withFormat x).enumL = j.enumL := by cases j; rfl
@[simp] theorem oneOf_withFormat (j : SchemaType) (x) : (j.withFormat x).oneOf = j.oneOf := by cases j; rfl
@[simp] theorem items_withFormat (j : SchemaType) (x) : (j.withFormat x).items = j.items := by cases j; rfl
@[simp] theorem properties_withFormat (j : SchemaType) (x) : (j.withFormat x).properties = j.properties := by cases j; rfl
@[simp] theorem addProps_withFormat (j : SchemaType) (x) : (j.withFormat x).addProps = j.addProps := by cases j; rfl
@[simp] theorem version_withFormat (j : SchemaType) (x) : (j.withFormat x).version = j.version := by cases j; rfl
@[simp] theorem type_withEnum (j : SchemaType) (x) : (j.withEnum x).type = j.type := by cases j; rfl
@[simp] theorem format_withEnum (j : SchemaType) (x) : (j.withEnum x).format = j.format := by cases j; rfl
@[simp] theorem enumL_withEnum (j : SchemaType) (x) : (j.withEnum x).enumL = x := by cases j; rfl
@[simp] theorem oneOf_withEnum (j : SchemaType) (x) : (j.withEnum x).oneOf = j.oneOf := by cases j; rfl
@[simp] theorem items_withEnum (j : SchemaType) (x) : (j.withEnum x).items = j.items := by cases j; rfl
@[simp] theorem properties_withEnum (j : SchemaType) (x) : (j.withEnum x).properties = j.properties := by cases j; rfl
@[simp] theorem addProps_withEnum (j : SchemaType) (x) : (j.withEnum x).addProps = j.addProps := by cases j; rfl
@[simp] theorem version_withEnum (j : SchemaType) (x) : (j.withEnum x).version = j.version := by cases j; rfl
@[simp] theorem type_withOneOf (j : SchemaType) (x) : (j.withOneOf x).type = j.type := by cases j; rfl
@[simp] theorem format_withOneOf (j : SchemaType) (x) : (j.withOneOf x).format = j.format := by cases j; rfl
@[simp] theorem enumL_withOneOf (j : SchemaType) (x) : (j.withOneOf x).enumL = j.enumL := by cases j; rfl
@[simp] theorem oneOf_withOneOf (j : SchemaType) (x) : (j.withOneOf x).oneOf = x := by cases j; rfl
@[simp] theorem items_withOneOf (j : SchemaType) (x) : (j.withOneOf x).items = j.items := by cases j; rfl
@[simp] theorem properties_withOneOf (j : SchemaType) (x) : (j.withOneOf x).properties = j.properties := by cases j; rfl
@[simp] theorem addProps_withOneOf (j : SchemaType) (x) : (j.withOneOf x).addProps = j.addProps := by cases j; rfl
@[simp] theorem version_withOneOf (j : SchemaType) (x) : (j.withOneOf x).version = j.version := by cases j; rfl
@[simp] theorem type_withItems (j : SchemaType) (x) : (j.withItems x).type = j.type := by cases j; rfl
@[simp] theorem format_withItems (j : SchemaType) (x) : (j.withItems x).format = j.format := by cases j; rfl
@[simp] theorem enumL_withItems (j : SchemaType) (x) : (j.withItems x).enumL = j.enumL := by cases j; rfl
@[simp] theorem oneOf_withItems (j : SchemaType) (x) : (j.withItems x).oneOf = j.oneOf := by cases j; rfl
@[simp] theorem items_withItems (j : SchemaType) (x) : (j.withItems x).items = x := by cases j; rfl
@[simp] theorem properties_withItems (j : SchemaType) (x) : (j.withItems x).properties = j.properties := by cases j; rfl
@[simp] theorem addProps_withItems (j : SchemaType) (x) : (j.withItems x).addProps = j.addProps := by cases j; rfl
@[simp] theorem version_withItems (j : SchemaType) (x) : (j.withItems x).version = j.version := by cases j; rfl
@[simp] theorem type_withProps (j : SchemaType) (x) : (j.withProps x).type = j.type := by cases j; rfl
@[simp] theorem format_withProps (j : SchemaType) (x) : (j.withProps x).format = j.format := by cases j; rfl
@[simp] theorem enumL_withProps (j : SchemaType) (x) : (j.withProps x).enumL = j.enumL := by cases j; rfl
@[simp] theorem oneOf_withProps (j : SchemaType) (x) : (j.withProps x).oneOf = j.oneOf := by cases j; rfl
@[simp] theorem items_withProps (j : SchemaType) (x) : (j.withProps x).items = j.items := by cases j; rfl
@[simp] theorem properties_withProps (j : SchemaType) (x) : (j.withProps x).properties = x := by cases j; rfl
@[simp] theorem addProps_withProps (j : SchemaType) (x) : (j.withProps x).addProps = j.addProps := by cases j; rfl
@[simp] theorem version_withProps (j : SchemaType) (x) : (j.withProps x).version = j.version := by cases j; rfl
@[simp] theorem type_withAddProps (j : SchemaType) (x) : (j.withAddProps x).type = j.type := by cases j; rfl
@[simp] theorem format_withAddProps (j : SchemaType) (x) : (j.withAddProps x).format = j.format := by cases j; rfl
@[simp] theorem enumL_withAddProps (j : SchemaType) (x) : (j.withAddProps x).enumL = j.enumL := by cases j; rfl
@[simp] theorem oneOf_withAddProps (j : SchemaType) (x) : (j.withAddProps x).oneOf = j.oneOf := by cases j; rfl
@[simp] theorem items_withAddProps (j : SchemaType) (x) : (j.withAddProps x).items = j.items := by cases j; rfl
@[simp] theorem properties_withAddProps (j : SchemaType) (x) : (j.withAddProps x).properties = j.properties := by cases j; rfl
@[simp] theorem addProps_withAddProps (j : SchemaType) (x) : (j.withAddProps x).addProps = x := by cases j; rfl
@[simp] theorem version_withAddProps (j : SchemaType) (x) : (j.withAddProps x).version = j.version := by cases j; rfl
@[simp] theorem type_withVersion (j : SchemaType) (x) : (j.withVersion x).type = j.type := by cases j; rfl
@[simp] theorem format_withVersion (j : SchemaType) (x) : (j.withVersion x).format = j.format := by cases j; rfl
@[simp] theorem enumL_withVersion (j : SchemaType) (x) : (j.withVersion x).enumL = j.enumL := by cases j; rfl
@[simp] theorem oneOf_withVersion (j : SchemaType) (x) : (j.withVersion x).oneOf = j.oneOf := by cases j; rfl
@[simp] theorem items_withVersion (j : SchemaType) (x) : (j.withVersion x).items = j.items := by cases j; rfl
@[simp] theorem properties_withVersion (j : SchemaType) (x) : (j.withVersion x).properties = j.properties := by cases j; rfl
@[simp] theorem addProps_withVersion (j : SchemaType) (x) : (j.withVersion x).addProps = j.addProps := by cases j; rfl
@[simp] theorem version_withVersion (j : SchemaType) (x) : (j.withVersion x).version = x := by cases j; rfl

/-! ## Helpers for stating results -/

/-- Extracts the successfully converted schema node from a converter result. -/
def okNode (x : Option (Except String SchemaType) × Store) : Option SchemaType :=
  match x.1 with
  | some (.ok n) => some n
  | _ => none

/-! ## Configuration resolution: order dependence of the conflict panic -/

/-- Every parameter step of applyParams preserves an already-set
allowNullValues, so a later disallow_one_of always hits the conflict panic. -/
theorem applyParams_conflict (ps : List String) (cfg : Config)
    (hA : cfg.allowNullValues = true) (hD : "disallow_one_of" ∈ ps) :
    applyParams ps cfg = .error conflictMsg := by
  induction ps generalizing cfg with
  | nil => cases hD
  | cons p rest ih =>
    by_cases hp : p = "disallow_one_of"
    · subst hp
      simp only [applyParams, hA]
      simp
    · have hD2 : "disallow_one_of" ∈ rest := by
        rcases List.mem_cons.mp hD with h | h
        · exact absurd h.symm hp
        · exact h
      simp only [applyParams]
      split_ifs <;>
        first
          | exact ih _ rfl hD2
          | exact ih _ hA hD2
          | exact absurd (by assumption) hp
          | rfl

/-- C3 counterexample: with the two conflicting parameters in the order
disallow_one_of,allow_null_values, configuration resolution does not raise the
fatal error; it silently enables both options, refuting the claim that the
error is raised regardless of order. -/
theorem c3_counterexample :
    commandLineParameter "disallow_one_of,allow_null_values" {} =
      .ok { allowNullValues := true, disallowOneOf := true } := rfl

/-- C3 (amended): the conflict is order dependent.  Whenever allow_null_values
occurs before disallow_one_of in the parameter list (in particular for the
comma-separated string allow_null_values,disallow_one_of), configuration
resolution raises the fatal conflict error; in the opposite order both options
are silently enabled. -/
theorem c3_conflict_order_dependent :
    (∀ (cfg : Config) (l m r : List String),
      applyParams (l ++ "allow_null_values" :: (m ++ "disallow_one_of" :: r)) cfg =
        .error conflictMsg) ∧
    commandLineParameter "allow_null_values,disallow_one_of" {} =
      .error conflictMsg ∧
    commandLineParameter "disallow_one_of,allow_null_values" {} =
      .ok { allowNullValues := true, disallowOneOf := true } := by
  refine ⟨?_, rfl, rfl⟩
  intro cfg l m r
  induction l generalizing cfg with
  | nil =>
    have hstep : applyParams ("allow_null_values" :: (m ++ "disallow_one_of" :: r)) cfg =
        applyParams (m ++ "disallow_one_of" :: r) { cfg with allowNullValues := true } := rfl
    rw [List.nil_append, hstep]
    exact applyParams_conflict _ _ rfl (by simp)
  | cons p l2 ih =>
    simp only [List.cons_append, applyParams]
    split_ifs <;> first | exact ih _ | rfl

/-! ## Scalar field conversion -/

/-- The 64-bit integer kinds (main.go lines 220-224). -/
def int64Family (t : FieldType) : Bool :=
  match t with
  | .tInt64 | .tUint64 | .tFixed64 | .tSfixed64 | .tSint64 => true
  | _ => false

/-- The scalar kinds outside the 64-bit family, with the gojsonschema type tag
they map to (main.go lines 195-218, 238-247, 295-303). -/
def scalarTypeOf : FieldType → Option String
  | .tDouble | .tFloat => some TYPE_NUMBER
  | .tInt32 | .tUint32 | .tFixed32 | .tSfixed32 | .tSint32 => some TYPE_INTEGER
  | .tString | .tBytes => some TYPE_STRING
  | .tBool => some TYPE_BOOLEAN
  | _ => none

/-- C4 counterexample: an int64 field converted with every configuration flag
off yields a two-member one-of of integer and string, not the bare non-union
scalar schema the claim asserts for every scalar kind. -/
theorem c4_counterexample :
    okNode (convertField {} (PkgTree.mk [] []) 1 []
        { name := "f", jsonName := "f", typ := FieldType.tInt64, typeName := "",
          label := Label.optional } 0 []) =
      some (emptySchema.withOneOf [typeOnly TYPE_INTEGER, typeOnly TYPE_STRING]) ∧
    [typeOnly TYPE_INTEGER, typeOnly TYPE_STRING] ≠ ([] : List SchemaType) :=
  ⟨rfl, by simp⟩

/-- C4 (amended): for every non-repeated scalar field kind outside the 64-bit
integer family (double/float, the 32-bit integer family, string/bytes, bool),
converting with every configuration flag off yields the bare non-union scalar
schema of the expected type, and converting with allow_null_values as the only
flag on yields the two-member one-of of null and that scalar type.  The 64-bit
family instead follows the one-of rule of C5 even with all flags off. -/
theorem c4_scalars_amended :
    ∀ (reg : PkgTree) (fuel : Nat) (path : List String) (field : FieldD)
      (msgId : Nat) (store : Store) (s : String),
      scalarTypeOf field.typ = some s → field.label ≠ Label.repeated →
      convertField {} reg (fuel + 1) path field msgId store =
        (some (.ok (typeOnly s)), store) ∧
      convertField { allowNullValues := true } reg (fuel + 1) path field msgId store =
        (some (.ok (emptySchema.withOneOf [typeOnly TYPE_NULL, typeOnly s])), store) := by
  intro reg fuel path field msgId store s hS hL
  obtain ⟨n, jn, t, tn, lab⟩ := field
  cases lab
  case repeated => exact absurd rfl hL
  all_goals
    cases t <;> simp only [scalarTypeOf] at hS <;>
      first
        | exact Option.noConfusion hS
        | (injection hS with h; subst h; exact ⟨rfl, rfl⟩)

/-- C4 witness: the amended theorem applied to a non-repeated int32 field. -/
theorem c4_scalars_amended_witness :
    scalarTypeOf FieldType.tInt32 = some TYPE_INTEGER ∧
    convertField {} (PkgTree.mk [] []) 1 []
        { name := "f", jsonName := "f", typ := FieldType.tInt32, typeName := "",
          label := Label.optional } 0 [] =
      (some (.ok (typeOnly TYPE_INTEGER)), []) :=
  ⟨rfl,
    (c4_scalars_amended (PkgTree.mk [] []) 0 []
      { name := "f", jsonName := "f", typ := FieldType.tInt32, typeName := "",
        label := Label.optional } 0 [] TYPE_INTEGER rfl
      (by simp)).1⟩

/-- C5 (confirmed): a non-repeated 64-bit integer field converts, when one-of
is allowed, to a one-of holding integer, then string unless
disallow_bigints_as_strings, then null exactly when allow_null_values; with
disallow_one_of set it converts to the bare integer schema regardless of the
other two flags. -/
theorem c5_int64_union :
    ∀ (cfg : Config) (reg : PkgTree) (fuel : Nat) (path : List String)
      (field : FieldD) (msgId : Nat) (store : Store),
      int64Family field.typ = true → field.label ≠ Label.repeated →
      (cfg.disallowOneOf = false →
        convertField cfg reg (fuel + 1) path field msgId store =
          (some (.ok (emptySchema.withOneOf
            ([typeOnly TYPE_INTEGER] ++
              (if cfg.disallowBigIntsAsStrings then [] else [typeOnly TYPE_STRING]) ++
              (if cfg.allowNullValues then [typeOnly TYPE_NULL] else [])))), store)) ∧
      (cfg.disallowOneOf = true →
        convertField cfg reg (fuel + 1) path field msgId store =
          (some (.ok (typeOnly TYPE_INTEGER)), store)) := by
  intro cfg reg fuel path field msgId store h64 hL
  obtain ⟨n, jn, t, tn, lab⟩ := field
  obtain ⟨b1, b2, b3, b4, b5, b6⟩ := cfg
  constructor
  all_goals intro hOO
  all_goals simp only at hOO
  all_goals subst hOO
  all_goals cases lab
  all_goals
    first
      | exact absurd rfl hL
      | (cases t <;> simp only [int64Family] at h64 <;>
          first
            | exact Bool.noConfusion h64
            | (cases b1 <;> cases b5 <;> exact rfl))

/-- C5 witness: the theorem applied to a non-repeated int64 field with
disallow_bigints_as_strings set (the string member is dropped). -/
theorem c5_int64_union_witness :
    int64Family FieldType.tInt64 = true ∧
    convertField { disallowBigIntsAsStrings := true } (PkgTree.mk [] []) 1 []
        { name := "f", jsonName := "f", typ := FieldType.tInt64, typeName := "",
          label := Label.optional } 0 [] =
      (some (.ok (emptySchema.withOneOf [typeOnly TYPE_INTEGER])), []) :=
  ⟨rfl,
    (c5_int64_union { disallowBigIntsAsStrings := true } (PkgTree.mk [] []) 0 []
        { name := "f", jsonName := "f", typ := FieldType.tInt64, typeName := "",
          label := Label.optional } 0 [] rfl (by simp)).1 rfl⟩

/-! ## Enum field conversion -/

/-- Closed form of the interleaved enum literal list with numbers enabled. -/
theorem enumLits_true (vs : List EnumValueD) :
    enumLits true vs =
      (vs.map (fun v => [EnumLit.str v.name, EnumLit.num v.number])).flatten := by
  induction vs with
  | nil => rfl
  | cons v vs2 ih => simp [enumLits, ih]

/-- Closed form of the enum literal list with numbers disabled. -/
theorem enumLits_false (vs : List EnumValueD) :
    enumLits false vs = vs.map (fun v => EnumLit.str v.name) := by
  induction vs with
  | nil => rfl
  | cons v vs2 ih => simp [enumLits, ih]

/-- The base schema of an enum field never carries the object type tag. -/
theorem baseSchema_enum_type_ne_object (cfg : Config) (n jn tn : String)
    (lab : Label) (es : List EnumD) :
    (baseSchema cfg
        { name := n, jsonName := jn, typ := FieldType.tEnum,
          typeName := tn, label := lab } es).type ≠ TYPE_OBJECT := by
  simp only [baseSchema]
  split <;> split <;> simp [typeOnly, emptySchema, TYPE_STRING, TYPE_OBJECT]

/-- A non-repeated enum field converts to exactly its base schema, leaving the
store unchanged. -/
theorem convertField_enum (cfg : Config) (reg : PkgTree) (fuel : Nat)
    (path : List String) (n jn tn : String) (lab : Label) (msgId : Nat)
    (store : Store) (hL : lab ≠ Label.repeated) :
    convertField cfg reg (fuel + 1) path
        { name := n, jsonName := jn, typ := FieldType.tEnum, typeName := tn,
          label := lab } msgId store =
      (some (.ok (baseSchema cfg
          { name := n, jsonName := jn, typ := FieldType.tEnum, typeName := tn,
            label := lab }
          (msgAt store msgId).enums)), store) := by
  simp only [convertField]
  rw [if_neg, if_neg]
  · exact baseSchema_enum_type_ne_object cfg n jn tn lab (msgAt store msgId).enums
  · rintro ⟨h, _⟩
    exact hL h

/-- C6 (confirmed): for a non-repeated enum field whose type name suffix
matches an enum of the enclosing message (first match wins), converting with
enum-one-of and one-of both enabled yields the matched enum values in
declaration order interleaved as (name, number) pairs, while converting with
enum-one-of disabled yields only the names in order on a bare string schema
with no one-of members. -/
theorem c6_enum_values :
    ∀ (cfg : Config) (reg : PkgTree) (fuel : Nat) (path : List String)
      (field : FieldD) (msgId : Nat) (store : Store) (ed : EnumD),
      field.typ = FieldType.tEnum → field.label ≠ Label.repeated →
      (msgAt store msgId).enums.find?
          (fun e2 => strEndsWith field.typeName e2.name) = some ed →
      (cfg.disallowEnumOneOf = false → cfg.disallowOneOf = false →
        (okNode (convertField cfg reg (fuel + 1) path field msgId store)).map
            SchemaType.enumL =
          some ((ed.values.map
            (fun v => [EnumLit.str v.name, EnumLit.num v.number])).flatten)) ∧
      (cfg.disallowEnumOneOf = true →
        (okNode (convertField cfg reg (fuel + 1) path field msgId store)).map
            SchemaType.enumL =
          some (ed.values.map (fun v => EnumLit.str v.name)) ∧
        (okNode (convertField cfg reg (fuel + 1) path field msgId store)).map
            SchemaType.type = some TYPE_STRING ∧
        (okNode (convertField cfg reg (fuel + 1) path field msgId store)).map
            SchemaType.oneOf = some ([] : List SchemaType)) := by
  intro cfg reg fuel path field msgId store ed hT hL hFind
  obtain ⟨n, jn, t, tn, lab⟩ := field
  simp only at hT
  subst hT
  rw [convertField_enum cfg reg fuel path n jn tn lab msgId store hL]
  simp only [baseSchema] at hFind ⊢
  rw [hFind]
  constructor
  · intro h2 h3
    rw [h2, h3]
    simp [okNode, enumLits_true]
  · intro h2
    rw [h2]
    simp [okNode, enumLits_false, emptySchema, typeOnly]

/-- Concrete store for the C6 witness: one message with one local enum. -/
def c6Store : Store :=
  [{ name := "M", fields := [], nested := [],
     enums := [{ name := "Stuff",
                 values := [{ name := "FOO", number := 0 },
                            { name := "BAR", number := 1 }] }] }]

/-- Concrete enum field for the C6 witness. -/
def c6Field : FieldD :=
  { name := "f", jsonName := "f", typ := FieldType.tEnum,
    typeName := ".samples.Stuff", label := Label.optional }

/-- C6 witness: the theorem applied to a concrete enum field with the default
configuration; the allowed values interleave names and numbers. -/
theorem c6_enum_values_witness :
    (msgAt c6Store 0).enums.find?
        (fun e2 => strEndsWith c6Field.typeName e2.name) =
      some { name := "Stuff",
             values := [{ name := "FOO", number := 0 },
                        { name := "BAR", number := 1 }] } ∧
    (okNode (convertField {} (PkgTree.mk [] []) 1 [] c6Field 0 c6Store)).map
        SchemaType.enumL =
      some [EnumLit.str "FOO", EnumLit.num 0, EnumLit.str "BAR", EnumLit.num 1] :=
  ⟨rfl,
    (c6_enum_values {} (PkgTree.mk [] []) 0 [] c6Field 0 c6Store
        { name := "Stuff",
          values := [{ name := "FOO", number := 0 },
                     { name := "BAR", number := 1 }] }
        rfl (by decide) rfl).1 rfl rfl⟩

/-! ## Repeated Timestamp fields -/

/-- C10 (confirmed): a repeated field of the well-known Timestamp type becomes
an array (nullable-wrapped as one-of null/array exactly when nullability and
one-of are both enabled) whose items node carries only the scalar type string;
the date-time format hint stays on the outer node and is not copied to the
items node, and the store is left unchanged. -/
theorem c10_repeated_timestamp :
    ∀ (cfg : Config) (reg : PkgTree) (fuel : Nat) (path : List String)
      (field : FieldD) (msgId : Nat) (store : Store),
      (field.typ = FieldType.tMessage ∨ field.typ = FieldType.tGroup) →
      field.typeName = ".google.protobuf.Timestamp" →
      field.label = Label.repeated →
      (okNode (convertField cfg reg (fuel + 1) path field msgId store)).map
          SchemaType.items = some (some (typeOnly TYPE_STRING)) ∧
      (okNode (convertField cfg reg (fuel + 1) path field msgId store)).map
          SchemaType.format = some "date-time" ∧
      ((cfg.allowNullValues && !cfg.disallowOneOf) = false →
        (okNode (convertField cfg reg (fuel + 1) path field msgId store)).map
            SchemaType.type = some TYPE_ARRAY ∧
        (okNode (convertField cfg reg (fuel + 1) path field msgId store)).map
            SchemaType.oneOf = some ([] : List SchemaType)) ∧
      ((cfg.allowNullValues && !cfg.disallowOneOf) = true →
        (okNode (convertField cfg reg (fuel + 1) path field msgId store)).map
            SchemaType.oneOf = some [typeOnly TYPE_NULL, typeOnly TYPE_ARRAY]) ∧
      (convertField cfg reg (fuel + 1) path field msgId store).2 = store := by
  intro cfg reg fuel path field msgId store hT hTN hLab
  obtain ⟨n, jn, t, tn, lab⟩ := field
  simp only at hT hTN hLab
  subst hTN
  subst hLab
  obtain ⟨b1, b2, b3, b4, b5, b6⟩ := cfg
  rcases hT with h | h <;> subst h <;> cases b1 <;> cases b3 <;>
    refine ⟨rfl, rfl, fun h2 => ?_, fun h2 => ?_, rfl⟩ <;>
      first
        | exact Bool.noConfusion h2
        | exact ⟨rfl, rfl⟩
        | exact rfl

/-- C10 witness: the theorem applied to a concrete repeated Timestamp field
under the default configuration. -/
theorem c10_repeated_timestamp_witness :
    (okNode (convertField {} (PkgTree.mk [] []) 1 []
        { name := "t", jsonName := "t", typ := FieldType.tMessage,
          typeName := ".google.protobuf.Timestamp", label := Label.repeated }
        0 [])).map SchemaType.items = some (some (typeOnly TYPE_STRING)) ∧
    (okNode (convertField {} (PkgTree.mk [] []) 1 []
        { name := "t", jsonName := "t", typ := FieldType.tMessage,
          typeName := ".google.protobuf.Timestamp", label := Label.repeated }
        0 [])).map SchemaType.format = some "date-time" :=
  ⟨(c10_repeated_timestamp {} (PkgTree.mk [] []) 0 []
      { name := "t", jsonName := "t", typ := FieldType.tMessage,
        typeName := ".google.protobuf.Timestamp", label := Label.repeated }
      0 [] (Or.inl rfl) rfl rfl).1,
   (c10_repeated_timestamp {} (PkgTree.mk [] []) 0 []
      { name := "t", jsonName := "t", typ := FieldType.tMessage,
        typeName := ".google.protobuf.Timestamp", label := Label.repeated }
      0 [] (Or.inl rfl) rfl rfl).2.1⟩

/-! ## The scalar-type / one-of exclusion invariant -/

/-- The base node of the type switch always carries at most one of a scalar
type tag and a non-empty one-of list. -/
theorem baseSchema_type_or_oneOf (cfg : Config) (field : FieldD) (es : List EnumD) :
    (baseSchema cfg field es).type = "" ∨ (baseSchema cfg field es).oneOf = [] := by
  obtain ⟨n, jn, t, tn, lab⟩ := field
  cases t <;> (simp only [baseSchema]; repeat' split) <;>
    simp [emptySchema, typeOnly]

/-- Under the nullable wrap, the array wrap sets the one-of to null/array but
keeps the type tag of the incoming node. -/
theorem repeatWrap_pos (cfg : Config) (j : SchemaType)
    (h : (cfg.allowNullValues && !cfg.disallowOneOf) = true) :
    (repeatWrap cfg j).oneOf = [typeOnly TYPE_NULL, typeOnly TYPE_ARRAY] ∧
    (repeatWrap cfg j).type = j.type := by
  obtain ⟨b1, b2, b3, b4, b5, b6⟩ := cfg
  simp only [Bool.and_eq_true, Bool.not_eq_true'] at h
  obtain ⟨h1, h3⟩ := h
  subst h1
  subst h3
  constructor
  · simp [repeatWrap]
  · simp only [repeatWrap]
    simp only [Bool.not_false, Bool.and_self, if_true]
    split <;> simp

/-- Without the nullable wrap, the array wrap yields a bare array node. -/
theorem repeatWrap_neg (cfg : Config) (j : SchemaType)
    (h : (cfg.allowNullValues && !cfg.disallowOneOf) = false) :
    (repeatWrap cfg j).type = TYPE_ARRAY ∧ (repeatWrap cfg j).oneOf = [] := by
  constructor <;> (simp only [repeatWrap, h]; simp)

/-- The field loop only adds properties: the type tag and the one-of list of
the accumulated message node are those of the initial node. -/
theorem convertFields_preserves (cfg : Config) (reg : PkgTree) :
    ∀ (fuel : Nat) (path : List String) (msgId : Nat) (fs : List FieldD)
      (acc : SchemaType) (store : Store) (node : SchemaType) (s2 : Store),
      convertFields cfg reg fuel path msgId fs acc store = (some (.ok node), s2) →
      node.type = acc.type ∧ node.oneOf = acc.oneOf := by
  intro fuel
  induction fuel with
  | zero =>
    intro path msgId fs acc store node s2 h
    simp [convertFields] at h
  | succ fuel ih =>
    intro path msgId fs acc store node s2 h
    cases fs with
    | nil =>
      simp only [convertFields, Prod.mk.injEq, Option.some.injEq] at h
      obtain ⟨h1, _⟩ := h
      cases h1
      exact ⟨rfl, rfl⟩
    | cons f rest =>
      simp only [convertFields] at h
      rcases hcf : convertField cfg reg fuel path f msgId store with ⟨r, s⟩
      rw [hcf] at h
      match r, h with
      | none, h => simp at h
      | some (.error e), h => simp at h
      | some (.ok rr), h =>
        have h2 := ih path msgId rest _ s node s2 h
        simpa using h2

/-- A completed message conversion never carries both a scalar type tag and a
non-empty one-of list. -/
theorem convertMessageType_inv (cfg : Config) (reg : PkgTree) (fuel : Nat)
    (path : List String) (msgId : Nat) (store : Store) (node : SchemaType)
    (s2 : Store)
    (h : convertMessageType cfg reg (fuel + 1) path msgId store = (some (.ok node), s2)) :
    node.oneOf ≠ [] → node.type = "" := by
  intro hne
  simp only [convertMessageType] at h
  have hp := convertFields_preserves cfg reg fuel path msgId _ _ store node s2 h
  by_cases hw : (cfg.allowNullValues && !cfg.disallowOneOf) = true
  · rw [hw] at hp
    simpa using hp.1
  · rw [Bool.not_eq_true] at hw
    rw [hw] at hp
    simp only [Bool.false_eq_true, if_false] at hp
    exact absurd (by simpa using hp.2) hne

/-- C1 counterexample: a repeated Timestamp field converted with
allow_null_values on (and one-of allowed) returns a node that carries the
scalar type tag string and the non-empty one-of null/array simultaneously. -/
theorem c1_counterexample :
    okNode (convertField { allowNullValues := true } (PkgTree.mk [] []) 1 []
        { name := "t", jsonName := "t", typ := FieldType.tMessage,
          typeName := ".google.protobuf.Timestamp", label := Label.repeated }
        0 []) =
      some (SchemaType.mk TYPE_STRING "date-time" []
        [typeOnly TYPE_NULL, typeOnly TYPE_ARRAY]
        (some (typeOnly TYPE_STRING)) [] none false) ∧
    TYPE_STRING ≠ "" ∧
    [typeOnly TYPE_NULL, typeOnly TYPE_ARRAY] ≠ ([] : List SchemaType) :=
  ⟨rfl, by decide, by simp⟩

/-- C1 (amended): at conversion completion a schema node returned by
convertField carries at most one of a scalar type tag and a non-empty one-of
union, except when a repeated field is wrapped as a nullable array (nullability
and one-of both enabled) and the pre-wrap node still carried a scalar type tag
(repeated Timestamp fields, and repeated enum fields converted without an
enum one-of union): there the one-of is exactly null/array while the stale
type tag remains set.  Nodes returned by convertMessageType always satisfy the
exclusion. -/
theorem c1_invariant_amended :
    (∀ (cfg : Config) (reg : PkgTree) (fuel : Nat) (path : List String)
       (field : FieldD) (msgId : Nat) (store : Store) (node : SchemaType)
       (s2 : Store),
      convertField cfg reg (fuel + 1) path field msgId store = (some (.ok node), s2) →
      node.oneOf ≠ [] →
      (node.type = "" ∨
        (field.label = Label.repeated ∧ cfg.allowNullValues = true ∧
          cfg.disallowOneOf = false ∧
          node.oneOf = [typeOnly TYPE_NULL, typeOnly TYPE_ARRAY]))) ∧
    (∀ (cfg : Config) (reg : PkgTree) (fuel : Nat) (path : List String)
       (msgId : Nat) (store : Store) (node : SchemaType) (s2 : Store),
      convertMessageType cfg reg (fuel + 1) path msgId store = (some (.ok node), s2) →
      node.oneOf ≠ [] → node.type = "") := by
  constructor
  · intro cfg reg fuel path field msgId store node s2 h hne
    simp only [convertField] at h
    split at h
    · -- repeated, non-object base: the array wrap
      rename_i hcond
      obtain ⟨hrep, _⟩ := hcond
      simp only [Prod.mk.injEq, Option.some.injEq, Except.ok.injEq] at h
      obtain ⟨hnode, _⟩ := h
      subst hnode
      by_cases hw : (cfg.allowNullValues && !cfg.disallowOneOf) = true
      · obtain ⟨hb1, hb3⟩ := Bool.and_eq_true_iff.mp hw
        exact Or.inr ⟨hrep, hb1, by simpa using hb3, (repeatWrap_pos cfg _ hw).1⟩
      · exact absurd ((repeatWrap_neg cfg _ (Bool.not_eq_true _ ▸ hw)).2) hne
    · split at h
      · -- object base: recurse through the registry
        split at h
        · simp at h
        · rename_i hobj _ mid hlook
          split at h
          · simp at h
          · simp at h
          · rename_i r s hconv
            split at h
            · simp only [Prod.mk.injEq, Option.some.injEq, Except.ok.injEq] at h
              obtain ⟨hnode, _⟩ := h
              subst hnode
              exact Or.inl (by simp)
            · simp only [Prod.mk.injEq, Option.some.injEq, Except.ok.injEq] at h
              obtain ⟨hnode, _⟩ := h
              subst hnode
              rcases baseSchema_type_or_oneOf cfg field (msgAt store msgId).enums with ht | ho
              · rw [hobj] at ht
                exact absurd ht (by simp [TYPE_OBJECT])
              · split at hne <;> exact absurd (by simpa using ho) hne
      · -- plain scalar/enum base returned unchanged
        simp only [Prod.mk.injEq, Option.some.injEq, Except.ok.injEq] at h
        obtain ⟨hnode, _⟩ := h
        subst hnode
        rcases baseSchema_type_or_oneOf cfg field (msgAt store msgId).enums with ht | ho
        · exact Or.inl ht
        · exact absurd ho hne
  · intro cfg reg fuel path msgId store node s2 h
    exact convertMessageType_inv cfg reg fuel path msgId store node s2 h

/-! ## Persistence of the enum-list enrichment (shared descriptor mutation) -/

/-- The second store is the first one after conversion side effects: same
length, every message keeps its name, fields and nested list, and its enum
list is unchanged unless it started empty (the enrichment target). -/
def storeExtends (store store2 : Store) : Prop :=
  store2.length = store.length ∧
  ∀ i, (msgAt store2 i).name = (msgAt store i).name ∧
       (msgAt store2 i).fields = (msgAt store i).fields ∧
       (msgAt store2 i).nested = (msgAt store i).nested ∧
       ((msgAt store2 i).enums = (msgAt store i).enums ∨ (msgAt store i).enums = [])

/-- storeExtends is reflexive. -/
theorem storeExtends_refl (s : Store) : storeExtends s s :=
  ⟨rfl, fun _ => ⟨rfl, rfl, rfl, Or.inl rfl⟩⟩

/-- storeExtends is transitive. -/
theorem storeExtends_trans {a b c : Store} (h1 : storeExtends a b)
    (h2 : storeExtends b c) : storeExtends a c := by
  obtain ⟨hl1, h1⟩ := h1
  obtain ⟨hl2, h2⟩ := h2
  refine ⟨hl2.trans hl1, fun i => ?_⟩
  obtain ⟨n1, f1, ne1, e1⟩ := h1 i
  obtain ⟨n2, f2, ne2, e2⟩ := h2 i
  refine ⟨n2.trans n1, f2.trans f1, ne2.trans ne1, ?_⟩
  rcases e1 with e1 | e1
  · rcases e2 with e2 | e2
    · exact Or.inl (e2.trans e1)
    · exact Or.inr (e1.symm.trans e2)
  · exact Or.inr e1

/-- Appending enums to a message whose enum list is empty is a storeExtends
step. -/
theorem storeExtends_appendEnums (store : Store) (i : Nat) (es : List EnumD)
    (h : (msgAt store i).enums = []) :
    storeExtends store (appendEnums store i es) := by
  unfold appendEnums
  cases hg : store.get? i with
  | none => exact storeExtends_refl store
  | some m =>
    have hm : msgAt store i = m := by unfold msgAt; rw [hg]; rfl
    have hlen : i < store.length := by
      by_contra hge
      rw [List.get?_eq_getElem?, List.getElem?_eq_none (by omega)] at hg
      exact Option.noConfusion hg
    refine ⟨List.length_set .., fun k => ?_⟩
    by_cases hk : i = k
    · subst hk
      have hset : (store.set i { m with enums := m.enums ++ es }).get? i =
          some { m with enums := m.enums ++ es } := by
        rw [List.get?_eq_getElem?, List.getElem?_set]
        simp [hlen]
      have hm2 : msgAt (store.set i { m with enums := m.enums ++ es }) i =
          { m with enums := m.enums ++ es } := by
        unfold msgAt
        rw [hset]
        rfl
      rw [hm2, hm]
      exact ⟨rfl, rfl, rfl, Or.inr (hm ▸ h)⟩
    · have hgk : (store.set i { m with enums := m.enums ++ es }).get? k =
          store.get? k := by
        rw [List.get?_eq_getElem?, List.getElem?_set_ne hk, List.get?_eq_getElem?]
      have hmk : msgAt (store.set i { m with enums := m.enums ++ es }) k =
          msgAt store k := by
        unfold msgAt
        rw [hgk]
      rw [hmk]
      exact ⟨rfl, rfl, rfl, Or.inl rfl⟩

/-- The conversion functions only perform enrichment steps on the store. -/
theorem convert_evolves (cfg : Config) (reg : PkgTree) :
    ∀ fuel : Nat,
      (∀ path field msgId store,
        storeExtends store (convertField cfg reg fuel path field msgId store).2) ∧
      (∀ path msgId store,
        storeExtends store (convertMessageType cfg reg fuel path msgId store).2) ∧
      (∀ path msgId fs acc store,
        storeExtends store (convertFields cfg reg fuel path msgId fs acc store).2) := by
  intro fuel
  induction fuel with
  | zero =>
    exact ⟨fun _ _ _ store => storeExtends_refl store,
           fun _ _ store => storeExtends_refl store,
           fun _ _ _ _ store => storeExtends_refl store⟩
  | succ fuel ih =>
    obtain ⟨ihF, ihM, ihL⟩ := ih
    refine ⟨?_, ?_, ?_⟩
    · intro path field msgId store
      simp only [convertField]
      split
      · exact storeExtends_refl store
      · split
        · split
          · exact storeExtends_refl store
          · rename_i mid hlook
            have hs1 : storeExtends store
                (if (msgAt store mid).enums.isEmpty then
                  appendEnums store mid (msgAt store msgId).enums
                 else store) := by
              split
              · exact storeExtends_appendEnums store mid _
                  (List.isEmpty_iff.mp (by assumption))
              · exact storeExtends_refl store
            rcases hmm : convertMessageType cfg reg fuel path mid
                (if (msgAt store mid).enums.isEmpty then
                  appendEnums store mid (msgAt store msgId).enums
                 else store) with ⟨r, s⟩
            have h2 : storeExtends store s := by
              have := ihM path mid
                (if (msgAt store mid).enums.isEmpty then
                  appendEnums store mid (msgAt store msgId).enums
                 else store)
              rw [hmm] at this
              exact storeExtends_trans hs1 this
            split
            all_goals rename_i heq
            all_goals injection heq with hr hs
            all_goals subst hs
            all_goals
              first
                | exact h2
                | (split <;> exact h2)
        · exact storeExtends_refl store
    · intro path msgId store
      simp only [convertMessageType]
      exact ihL path msgId _ _ store
    · intro path msgId fs acc store
      cases fs with
      | nil => simp only [convertFields]; exact storeExtends_refl store
      | cons f rest =>
        simp only [convertFields]
        rcases hcf : convertField cfg reg fuel path f msgId store with ⟨r, s⟩
        have h1 : storeExtends store s := by
          have := ihF path f msgId store
          rw [hcf] at this
          exact this
        match r with
        | none => exact h1
        | some (.error e) => exact h1
        | some (.ok rr) =>
          have h2 := ihL path msgId rest
            (acc.withProps (assocSet acc.properties f.jsonName rr)) s
          exact storeExtends_trans h1 h2

/-- C7 (amended): the enum-list enrichment of message-field resolution is not
rolled back when a conversion pass completes: convertField and
convertMessageType return the mutated descriptor store, in which every message
keeps its name, fields and nested list and keeps its enum list unchanged
unless that list was empty, in which case it may have been permanently
enriched; subsequent conversions observe the enriched store. -/
theorem c7_enrichment_persists :
    (∀ (cfg : Config) (reg : PkgTree) (fuel : Nat) (path : List String)
       (field : FieldD) (msgId : Nat) (store : Store),
      storeExtends store (convertField cfg reg fuel path field msgId store).2) ∧
    (∀ (cfg : Config) (reg : PkgTree) (fuel : Nat) (path : List String)
       (msgId : Nat) (store : Store),
      storeExtends store (convertMessageType cfg reg fuel path msgId store).2) :=
  ⟨fun cfg reg fuel path field msgId store =>
      (convert_evolves cfg reg fuel).1 path field msgId store,
   fun cfg reg fuel path msgId store =>
      (convert_evolves cfg reg fuel).2.1 path msgId store⟩

/-- The enum declared next to message A for the C7 counterexample. -/
def c7Enum : EnumD := { name := "E", values := [{ name := "X", number := 0 }] }

/-- Message A: one message-typed field referencing B, one sibling enum E. -/
def c7MsgA : MsgD :=
  { name := "A",
    fields := [{ name := "f", jsonName := "f", typ := FieldType.tMessage,
                 typeName := ".B", label := Label.optional }],
    nested := [], enums := [c7Enum] }

/-- Message B: one enum-typed field referencing E, and no local enums. -/
def c7MsgB : MsgD :=
  { name := "B",
    fields := [{ name := "g", jsonName := "g", typ := FieldType.tEnum,
                 typeName := ".E", label := Label.optional }],
    nested := [], enums := [] }

/-- The two-message store for the C7 counterexample. -/
def c7Store : Store := [c7MsgA, c7MsgB]

/-- A registry with A and B registered at the root. -/
def c7Reg : PkgTree := .mk [] [("A", 0), ("B", 1)]

/-- The field of A referencing B. -/
def c7FieldF : FieldD :=
  { name := "f", jsonName := "f", typ := FieldType.tMessage, typeName := ".B",
    label := Label.optional }

/-- C7 counterexample: converting field f of A enriches B with the enum E of
A, and the enrichment survives conversion completion: a subsequent independent
conversion of B observes enum list [E] (its field g now lists the literals of
E) instead of the original empty list (g listed no literals). -/
theorem c7_counterexample :
    (msgAt c7Store 1).enums = [] ∧
    (msgAt (convertField {} c7Reg 9 [] c7FieldF 0 c7Store).2 1).enums = [c7Enum] ∧
    ((okNode (convertMessageType {} c7Reg 9 [] 1 c7Store)).bind
        (fun nd => assocGet nd.properties "g")).map SchemaType.enumL =
      some [] ∧
    ((okNode (convertMessageType {} c7Reg 9 [] 1
        (convertField {} c7Reg 9 [] c7FieldF 0 c7Store).2)).bind
        (fun nd => assocGet nd.properties "g")).map SchemaType.enumL =
      some [EnumLit.str "X", EnumLit.num 0] :=
  ⟨rfl, rfl, rfl, rfl⟩

/-! ## Session loop lemmas -/

/-- Running the conversion loop over a concatenation: a successfully finished
first segment hands its accumulated documents and store to the second. -/
theorem convertLoop_append (cfg : Config) (reg : PkgTree) (fuel : Nat)
    (ts : List String) (ed : List EnumD) :
    ∀ (l1 l2 : List FileD) (acc : List OutFile) (store : Store)
      (r1 : CodeGenResponse) (s1 : Store),
      convertLoop cfg reg fuel ts ed l1 acc store = some (r1, s1) →
      r1.error = none →
      convertLoop cfg reg fuel ts ed (l1 ++ l2) acc store =
        convertLoop cfg reg fuel ts ed l2 r1.file s1 := by
  intro l1
  induction l1 with
  | nil =>
    intro l2 acc store r1 s1 h herr
    simp only [convertLoop, Option.some.injEq, Prod.mk.injEq] at h
    obtain ⟨h1, h2⟩ := h
    subst h2
    rw [List.nil_append, ← h1]
  | cons f rest ih =>
    intro l2 acc store r1 s1 h herr
    rw [List.cons_append]
    simp only [convertLoop] at h ⊢
    rcases hcf : convertFile cfg reg fuel { f with enumType := ed } store with ⟨r, s⟩
    rw [hcf] at h
    by_cases ht : ts.contains f.name = true
    · rw [if_pos ht] at h ⊢
      match r, h with
      | none, h => simp at h
      | some (.error e), h =>
        simp only [Option.some.injEq, Prod.mk.injEq] at h
        obtain ⟨h1, _⟩ := h
        rw [← h1] at herr
        simp at herr
      | some (.ok docs), h =>
        exact ih l2 (acc ++ docs) s r1 s1 h herr
    · rw [if_neg ht] at h ⊢
      exact ih l2 acc store r1 s1 h herr

/-- Target membership is all the loop reads from the target list. -/
theorem convertLoop_targets_congr (cfg : Config) (reg : PkgTree) (fuel : Nat)
    (ts1 ts2 : List String) (ed : List EnumD) :
    ∀ (files : List FileD) (acc : List OutFile) (store : Store),
      (∀ f ∈ files, ts1.contains f.name = ts2.contains f.name) →
      convertLoop cfg reg fuel ts1 ed files acc store =
        convertLoop cfg reg fuel ts2 ed files acc store := by
  intro files
  induction files with
  | nil => intro acc store _; rfl
  | cons f rest ih =>
    intro acc store hmem
    have hf : ts1.contains f.name = ts2.contains f.name :=
      hmem f (List.mem_cons_self f rest)
    have hrest : ∀ g ∈ rest, ts1.contains g.name = ts2.contains g.name :=
      fun g hg => hmem g (List.mem_cons_of_mem f hg)
    simp only [convertLoop, hf]
    rcases hcf : convertFile cfg reg fuel { f with enumType := ed } store with ⟨r, s⟩
    by_cases ht : ts2.contains f.name = true
    · rw [if_pos ht, if_pos ht]
      match r with
      | none => rfl
      | some (.error e) => rfl
      | some (.ok docs) => exact ih (acc ++ docs) s hrest
    · rw [if_neg ht, if_neg ht]
      exact ih acc store hrest

/-! ## Session-level concrete fixtures -/

/-- Two empty messages M and N used by the session-level counterexamples. -/
def c2Store : Store :=
  [{ name := "M", fields := [], nested := [], enums := [] },
   { name := "N", fields := [], nested := [], enums := [] }]

/-- File a.proto, package p, holding message M. -/
def c2FileA : FileD :=
  { name := "a.proto", pkg := some "p", messageType := [0], enumType := [] }

/-- File b.proto with an empty package string: its package lookup fails, so
its conversion errors. -/
def c2FileB : FileD :=
  { name := "b.proto", pkg := some "", messageType := [1], enumType := [] }

/-- File b.proto, package q, holding message N (a succeeding variant). -/
def c8FileQ : FileD :=
  { name := "b.proto", pkg := some "q", messageType := [1], enumType := [] }

/-- The document schema of an empty message under the default configuration. -/
def emptyMsgSchema : SchemaType :=
  SchemaType.mk TYPE_OBJECT "" [] [] none [] (some true) true

/-- C2 counterexample: a session whose first targeted file converts and whose
second targeted file fails returns a response that carries the error message
and still contains the document produced for the first file, refuting the
claim that a failing session contains no output documents. -/
theorem c2_counterexample :
    convert {} 9 { fileToGenerate := ["a.proto", "b.proto"],
                   protoFile := [c2FileA, c2FileB] } c2Store =
      some ({ error := some "Failed to convert b.proto: no such package found: ",
              file := [("M.jsonschema", emptyMsgSchema)] }, c2Store) ∧
    [("M.jsonschema", emptyMsgSchema)] ≠ ([] : List OutFile) :=
  ⟨rfl, by simp⟩

/-- C2 (amended): on the first conversion failure the session stops and the
response carries a single error message, but the documents accumulated for
targeted files converted before the failing file remain in the response; only
files after the failure contribute nothing. -/
theorem c2_error_keeps_earlier_documents :
    ∀ (cfg : Config) (reg : PkgTree) (fuel : Nat) (ts : List String)
      (ed : List EnumD) (l1 l2 : List FileD) (f : FileD) (acc : List OutFile)
      (store : Store) (r1 : CodeGenResponse) (s1 : Store) (e : String) (s2 : Store),
      convertLoop cfg reg fuel ts ed l1 acc store = some (r1, s1) →
      r1.error = none →
      ts.contains f.name = true →
      convertFile cfg reg fuel { f with enumType := ed } s1 = (some (.error e), s2) →
      convertLoop cfg reg fuel ts ed (l1 ++ f :: l2) acc store =
        some ({ error := some ("Failed to convert " ++ f.name ++ ": " ++ e),
                file := r1.file }, s2) := by
  intro cfg reg fuel ts ed l1 l2 f acc store r1 s1 e s2 h herr ht hcf
  rw [convertLoop_append cfg reg fuel ts ed l1 (f :: l2) acc store r1 s1 h herr]
  simp only [convertLoop]
  rw [hcf, if_pos ht]

/-- C2 witness: the amended theorem applied to the concrete failing session of
the counterexample (first file succeeds, second fails). -/
theorem c2_error_keeps_earlier_documents_witness :
    convertLoop {} (buildRegistry c2Store [c2FileA, c2FileB]) 9
        ["a.proto", "b.proto"] [] [c2FileA] [] c2Store =
      some ({ error := none, file := [("M.jsonschema", emptyMsgSchema)] }, c2Store) ∧
    (["a.proto", "b.proto"].contains c2FileB.name) = true ∧
    convertFile {} (buildRegistry c2Store [c2FileA, c2FileB]) 9
        { c2FileB with enumType := [] } c2Store =
      (some (.error "no such package found: "), c2Store) ∧
    convertLoop {} (buildRegistry c2Store [c2FileA, c2FileB]) 9
        ["a.proto", "b.proto"] [] ([c2FileA] ++ c2FileB :: []) [] c2Store =
      some ({ error := some ("Failed to convert " ++ c2FileB.name ++ ": " ++
                "no such package found: "),
              file := [("M.jsonschema", emptyMsgSchema)] }, c2Store) :=
  ⟨rfl, rfl, rfl,
    c2_error_keeps_earlier_documents {} (buildRegistry c2Store [c2FileA, c2FileB]) 9
      ["a.proto", "b.proto"] [] [c2FileA] [] c2FileB [] c2Store
      { error := none, file := [("M.jsonschema", emptyMsgSchema)] } c2Store
      "no such package found: " c2Store rfl rfl rfl rfl⟩

/-- C8 counterexample: with the target list naming b.proto before a.proto but
the forest listing a.proto first, the produced documents follow the forest
order (M before N), not the target-list order, refuting the claim that files
are converted in target-list order. -/
theorem c8_counterexample :
    convert {} 9 { fileToGenerate := ["b.proto", "a.proto"],
                   protoFile := [c2FileA, c8FileQ] } c2Store =
      some ({ error := none,
              file := [("M.jsonschema", emptyMsgSchema),
                       ("N.jsonschema", emptyMsgSchema)] }, c2Store) ∧
    ["M.jsonschema", "N.jsonschema"] ≠ ["N.jsonschema", "M.jsonschema"] :=
  ⟨rfl, by decide⟩

/-- C8 (amended): the session converts exactly those forest files whose names
are in the target list, visiting the forest in its own order and concatenating
each converted file's documents in that forest order: non-targeted files are
skipped, a targeted file appends its documents before the loop continues, an
exhausted forest returns the accumulated documents, a finished prefix hands
its documents to the remaining files, and convert is exactly this loop over
the request forest. -/
theorem c8_forest_order :
    ∀ (cfg : Config) (reg : PkgTree) (fuel : Nat) (ts : List String)
      (ed : List EnumD),
      (∀ (f : FileD) (rest : List FileD) (acc : List OutFile) (store : Store),
        ts.contains f.name = false →
        convertLoop cfg reg fuel ts ed (f :: rest) acc store =
          convertLoop cfg reg fuel ts ed rest acc store) ∧
      (∀ (f : FileD) (rest : List FileD) (acc docs : List OutFile)
         (store s : Store),
        ts.contains f.name = true →
        convertFile cfg reg fuel { f with enumType := ed } store =
          (some (.ok docs), s) →
        convertLoop cfg reg fuel ts ed (f :: rest) acc store =
          convertLoop cfg reg fuel ts ed rest (acc ++ docs) s) ∧
      (∀ (acc : List OutFile) (store : Store),
        convertLoop cfg reg fuel ts ed [] acc store =
          some ({ error := none, file := acc }, store)) ∧
      (∀ (l1 l2 : List FileD) (acc : List OutFile) (store : Store)
         (r1 : CodeGenResponse) (s1 : Store),
        convertLoop cfg reg fuel ts ed l1 acc store = some (r1, s1) →
        r1.error = none →
        convertLoop cfg reg fuel ts ed (l1 ++ l2) acc store =
          convertLoop cfg reg fuel ts ed l2 r1.file s1) := by
  intro cfg reg fuel ts ed
  refine ⟨?_, ?_, fun acc store => rfl, convertLoop_append cfg reg fuel ts ed⟩
  · intro f rest acc store ht
    simp only [convertLoop, ht]
    simp
  · intro f rest acc docs store s ht hcf
    simp only [convertLoop, ht, if_true]
    rw [hcf]

/-- C8 witness: the skip and append conjuncts applied to a concrete
non-targeted file and a concrete converted file. -/
theorem c8_forest_order_witness :
    (["a.proto"].contains c8FileQ.name) = false ∧
    convertLoop {} (PkgTree.mk [] []) 3 ["a.proto"] [] [c8FileQ] [] c2Store =
      convertLoop {} (PkgTree.mk [] []) 3 ["a.proto"] [] [] [] c2Store ∧
    convertFile {} (buildRegistry c2Store [c2FileA]) 9
        { c2FileA with enumType := [] } c2Store =
      (some (.ok [("M.jsonschema", emptyMsgSchema)]), c2Store) ∧
    convertLoop {} (buildRegistry c2Store [c2FileA]) 9 ["a.proto"] []
        [c2FileA] [] c2Store =
      convertLoop {} (buildRegistry c2Store [c2FileA]) 9 ["a.proto"] []
        [] ([] ++ [("M.jsonschema", emptyMsgSchema)]) c2Store :=
  ⟨rfl,
   (c8_forest_order {} (PkgTree.mk [] []) 3 ["a.proto"] []).1 c8FileQ [] [] c2Store rfl,
   rfl,
   (c8_forest_order {} (buildRegistry c2Store [c2FileA]) 9 ["a.proto"] []).2.1
     c2FileA [] [] [("M.jsonschema", emptyMsgSchema)] c2Store c2Store rfl rfl⟩

/-- Deduplicating a list does not change Boolean membership. -/
theorem contains_dedup (l : List String) (x : String) :
    l.dedup.contains x = l.contains x := by
  have h1 : l.dedup.contains x = List.elem x l.dedup := rfl
  have h2 : l.contains x = List.elem x l := rfl
  rw [h1, h2]
  by_cases h : x ∈ l
  · rw [List.elem_iff.mpr h, List.elem_iff.mpr (List.mem_dedup.mpr h)]
  · have hd : x ∉ l.dedup := fun hc => h (List.mem_dedup.mp hc)
    rw [Bool.eq_iff_iff]
    simp [List.elem_iff, h, hd]

/-- C9 (confirmed): a target name matching no forest file is silently skipped
(adding it to the target list changes nothing: no error, no document for that
name), and only target-list membership matters: deduplicating the target list
does not change the session result, so listing a file name several times
converts it no more often than listing it once. -/
theorem c9_missing_and_duplicate_targets :
    (∀ (cfg : Config) (fuel : Nat) (req : CodeGenRequest) (store : Store)
       (n : String),
      (∀ f ∈ req.protoFile, f.name ≠ n) →
      convert cfg fuel { fileToGenerate := n :: req.fileToGenerate,
                         protoFile := req.protoFile } store =
        convert cfg fuel req store) ∧
    (∀ (cfg : Config) (fuel : Nat) (pf : List FileD) (store : Store)
       (ts1 ts2 : List String),
      (∀ f ∈ pf, ts1.contains f.name = ts2.contains f.name) →
      convert cfg fuel { fileToGenerate := ts1, protoFile := pf } store =
        convert cfg fuel { fileToGenerate := ts2, protoFile := pf } store) ∧
    (∀ (cfg : Config) (fuel : Nat) (pf : List FileD) (store : Store)
       (ts : List String),
      convert cfg fuel { fileToGenerate := ts.dedup, protoFile := pf } store =
        convert cfg fuel { fileToGenerate := ts, protoFile := pf } store) := by
  refine ⟨?_, ?_, ?_⟩
  · intro cfg fuel req store n hmiss
    show convertLoop _ _ _ _ _ _ _ _ = convertLoop _ _ _ _ _ _ _ _
    apply convertLoop_targets_congr
    intro f hf
    have hne : (f.name == n) = false := by
      simp only [beq_eq_false_iff_ne, ne_eq]
      exact hmiss f hf
    rw [List.contains_cons, hne, Bool.false_or]
  · intro cfg fuel pf store ts1 ts2 hmem
    show convertLoop _ _ _ _ _ _ _ _ = convertLoop _ _ _ _ _ _ _ _
    exact convertLoop_targets_congr cfg _ fuel ts1 ts2 _ pf [] store hmem
  · intro cfg fuel pf store ts
    show convertLoop _ _ _ _ _ _ _ _ = convertLoop _ _ _ _ _ _ _ _
    exact convertLoop_targets_congr cfg _ fuel ts.dedup ts _ pf [] store
      (fun f _ => contains_dedup ts f.name)

/-- C9 witness: adding the missing name missing.proto to the target list of a
concrete session leaves the session result unchanged. -/
theorem c9_missing_and_duplicate_targets_witness :
    (∀ f ∈ [c2FileA], f.name ≠ "missing.proto") ∧
    convert {} 9 { fileToGenerate := "missing.proto" :: ["a.proto"],
                   protoFile := [c2FileA] } c2Store =
      convert {} 9 { fileToGenerate := ["a.proto"],
                     protoFile := [c2FileA] } c2Store :=
  ⟨by decide,
   (c9_missing_and_duplicate_targets).1 {} 9
     { fileToGenerate := ["a.proto"], protoFile := [c2FileA] } c2Store
     "missing.proto" (by decide)⟩

/-- C7 witness: the persistence theorem applied to the concrete enriching
conversion of the counterexample. -/
theorem c7_enrichment_persists_witness :
    storeExtends c7Store (convertField {} c7Reg 9 [] c7FieldF 0 c7Store).2 :=
  c7_enrichment_persists.1 {} c7Reg 9 [] c7FieldF 0 c7Store

/-- C1 witness: the amended invariant applied to a non-repeated int32 field
with allow_null_values on; the returned union forces the type tag empty. -/
theorem c1_invariant_amended_witness :
    convertField { allowNullValues := true } (PkgTree.mk [] []) 1 []
        { name := "f", jsonName := "f", typ := FieldType.tInt32, typeName := "",
          label := Label.optional } 0 [] =
      (some (.ok (emptySchema.withOneOf [typeOnly TYPE_NULL, typeOnly TYPE_INTEGER])), []) ∧
    ((emptySchema.withOneOf [typeOnly TYPE_NULL, typeOnly TYPE_INTEGER]).type = "" ∨
      (Label.optional = Label.repeated ∧ true = true ∧ false = false ∧
        (emptySchema.withOneOf [typeOnly TYPE_NULL, typeOnly TYPE_INTEGER]).oneOf =
          [typeOnly TYPE_NULL, typeOnly TYPE_ARRAY])) :=
  ⟨rfl,
    c1_invariant_amended.1 { allowNullValues := true } (PkgTree.mk [] []) 0 []
      { name := "f", jsonName := "f", typ := FieldType.tInt32, typeName := "",
        label := Label.optional } 0 []
      (emptySchema.withOneOf [typeOnly TYPE_NULL, typeOnly TYPE_INTEGER]) []
      rfl (by simp)⟩

end PGJS
